import Mathlib

/-!
# MemberRepository — shallow embedding

A shallow embedding of `src/services/apps/data_sink_worker/src/repo/member.repo.ts`
(the `MemberRepository` class of crowd.dev's data-sink worker), modelling the
relational store as Lean lists of rows and each repository operation as a pure
function over that state.  SQL semantics (filters, joins, `limit`, affected-row
counts, `on conflict do nothing`, the zero-or-one `oneOrNone` fetch) are modelled
explicitly; timestamps are `Nat`, machine strings are Lean `String`.
-/

namespace MemberRepo

/-- A weak identity reference, an element of `data.weakIdentities`
(`IMemberIdentity`-shaped values that get JSON-serialized before storage). -/
structure WeakIdentity where
  platform : String
  username : String
deriving DecidableEq, Repr

/-- JS `JSON.stringify` applied to a list of weak identities, as used by
`create` (line 131) and `update` (line 159) of member.repo.ts. -/
def jsonStringify (l : List WeakIdentity) : String :=
  "[" ++ String.intercalate "," (l.map fun w =>
    "\x7b\x22platform\x22:\x22" ++ w.platform ++ "\x22,\x22username\x22:\x22" ++ w.username ++ "\x22\x7d") ++ "]"

/-- The value stored in the `weakIdentities` column of a member row.
`serialized` is JSON text produced by `JSON.stringify`; `rawArray` is a JS array
value passed straight to the driver without the `JSON.stringify` step (this is
what `update` sends when `data.weakIdentities` is present but empty: the key is
in `Object.keys(data)`, hence in the dynamic column set, but the conditional
spread at lines 157–160 does not replace it with serialized text). -/
inductive WeakIdentitiesValue
  | serialized (s : String)
  | rawArray (l : List WeakIdentity)
deriving DecidableEq, Repr

/-- A row of the `"members"` table (`IDbMember`).  `reachTotal` models the
numeric `reach ->> 'total'` sub-field used by the listing's order-by. -/
structure MemberRow where
  id : String
  tenantId : String
  displayName : String
  emails : List String
  joinedAt : Nat
  score : Int
  reachTotal : Int
  weakIdentities : WeakIdentitiesValue
  createdAt : Nat
  updatedAt : Nat
deriving DecidableEq, Repr

/-- The `IDbMemberUpdateData` shape: a partial update; only the `some` fields are keys of
the JS `data` object, and only those (plus `updatedAt`) enter the dynamic
column set built by `update` (lines 143–150). -/
structure MemberUpdateData where
  displayName : Option String := none
  emails : Option (List String) := none
  joinedAt : Option Nat := none
  score : Option Int := none
  reachTotal : Option Int := none
  weakIdentities : Option (List WeakIdentity) := none
deriving Repr

/-- The row condition of `update` (line 168):
`where id = $(id) and "tenantId" = $(tenantId) and "updatedAt" < $(updatedAt)`. -/
def updateMatches (id tenantId : String) (now : Nat) (r : MemberRow) : Bool :=
  r.id = id && r.tenantId = tenantId && r.updatedAt < now

/-- The SET-clause effect of `update` on one row: only fields present in `data`
are written, plus the refreshed `updatedAt`.  `weakIdentities` follows the
conditional spread of lines 154–164: present and non-empty ⇒ JSON-serialized;
present and empty ⇒ the raw array value (the key is still in the column set);
absent ⇒ the column is not in the column set, so it is untouched. -/
def applyUpdate (data : MemberUpdateData) (now : Nat) (r : MemberRow) : MemberRow :=
  { r with
    displayName := data.displayName.getD r.displayName
    emails := data.emails.getD r.emails
    joinedAt := data.joinedAt.getD r.joinedAt
    score := data.score.getD r.score
    reachTotal := data.reachTotal.getD r.reachTotal
    weakIdentities :=
      match data.weakIdentities with
      | none => r.weakIdentities
      | some l => if l.length > 0 then .serialized (jsonStringify l) else .rawArray l
    updatedAt := now }

/-- Operation `update(id, tenantId, data)` (lines 142–176): a conditional UPDATE returning
the new table state together with the affected-row count (`db().result`). -/
def update (id tenantId : String) (data : MemberUpdateData) (now : Nat)
    (members : List MemberRow) : List MemberRow × Nat :=
  (members.map fun r => if updateMatches id tenantId now r then applyUpdate data now r else r,
   (members.filter (updateMatches id tenantId now)).length)

/-- An identity tuple handed to the repository (`IMemberIdentity`). -/
structure MemberIdentityInput where
  platform : String
  username : String
  sourceId : Option String := none
deriving DecidableEq, Repr

/-- A row of the `"memberIdentities"` table. -/
structure MemberIdentityRow where
  memberId : String
  tenantId : String
  integrationId : String
  platform : String
  username : String
  sourceId : Option String := none
deriving DecidableEq, Repr

/-- A row of the `"memberSegments"` link table. -/
structure MemberSegmentRow where
  memberId : String
  tenantId : String
  segmentId : String
deriving DecidableEq, Repr

/-- Errors surfaced by the operations of the store. -/
inductive RepoError
  | rowCountMismatch (expected actual : Nat)
  | sqlSyntaxError
  | multipleRows
  | invalidOrderBy (orderBy : String)
  | typeError
deriving DecidableEq, Repr

/-- The engine's single-row fetch (`db().oneOrNone`): zero rows give `none`,
one row gives it, more than one row is rejected with an error.  This models the
zero-or-one fetch of the external storage contract (spec §6(a)); the queries
below feed it the full result set of their statement. -/
def oneOrNone (rows : List α) : Except RepoError (Option α) :=
  match rows with
  | [] => .ok none
  | [r] => .ok (some r)
  | _ => .error .multipleRows

/-- Operation `findMemberByEmail(tenantId, email)` (lines 40–52): members of the tenant
whose `emails` array contains the email, with `limit 1` applied before the
zero-or-one fetch — so several matches yield the first, never an error. -/
def findMemberByEmail (tenantId email : String) (members : List MemberRow) :
    Except RepoError (Option MemberRow) :=
  oneOrNone ((members.filter fun m => m.tenantId == tenantId && m.emails.contains email).take 1)

/-- The rows produced by `findMember`'s statement (lines 60–67): members whose
id is in the set of `memberId`s of identity rows matching the tenant, platform
and username.  `segmentId` is bound as a parameter but never used as a filter,
exactly as in the source. -/
def findMemberRows (tenantId platform username : String)
    (members : List MemberRow) (identities : List MemberIdentityRow) : List MemberRow :=
  let mids := (identities.filter fun mi =>
    mi.tenantId == tenantId && mi.platform == platform && mi.username == username).map
      (fun mi => mi.memberId)
  members.filter fun m => mids.contains m.id

/-- Operation `findMember(tenantId, segmentId, platform, username)` (lines 54–75): the
statement has no `limit`, so the zero-or-one fetch errors when more than one
member row matches. -/
def findMember (tenantId segmentId platform username : String)
    (members : List MemberRow) (identities : List MemberIdentityRow) :
    Except RepoError (Option MemberRow) :=
  let _ := segmentId
  oneOrNone (findMemberRows tenantId platform username members identities)

/-- Operation `findById(id)` (lines 119–121): key lookup, no tenant filter. -/
def findById (id : String) (members : List MemberRow) : Except RepoError (Option MemberRow) :=
  oneOrNone (members.filter fun m => m.id == id)

/-- The join rows of `findIdentities`'s statement (lines 97–108): one output
row `(memberId, platform, username)` per pair of a stored identity row and an
input tuple agreeing on platform and username, restricted to the tenant and,
when `excludeMemberId` is supplied, to rows of other members. -/
def findIdentitiesRows (tenantId : String) (identities : List MemberIdentityInput)
    (excludeMemberId : Option String) (db : List MemberIdentityRow) :
    List (String × String × String) :=
  db.flatMap fun mi =>
    if mi.tenantId == tenantId
        && (match excludeMemberId with
            | some ex => mi.memberId != ex
            | none => true) then
      (identities.filter fun i => mi.platform == i.platform && mi.username == i.username).map
        fun _ => (mi.memberId, mi.platform, mi.username)
    else []

/-- JS `Map.set` on an association list: replace the value when the key is
present, append otherwise (insertion order preserved). -/
def mapSet (m : List (String × String)) (k v : String) : List (String × String) :=
  if m.any fun kv => kv.1 == k then
    m.map fun kv => if kv.1 == k then (k, v) else kv
  else m ++ [(k, v)]

/-- The `platform:username` key under which `findIdentities` stores a result. -/
def identityKey (platform username : String) : String :=
  platform ++ ":" ++ username

/-- Operation `findIdentities(tenantId, identities, memberId?)` (lines 77–117).  The
input tuples are spliced into a `values ${...}` clause by string concatenation;
with an empty input list the generated `values` clause is empty and the
statement is rejected by the engine as a syntax error before producing rows.
Otherwise the join rows are folded into a JS `Map` keyed `platform:username`. -/
def findIdentities (tenantId : String) (identities : List MemberIdentityInput)
    (excludeMemberId : Option String) (db : List MemberIdentityRow) :
    Except RepoError (List (String × String)) :=
  if identities.isEmpty then .error .sqlSyntaxError
  else .ok ((findIdentitiesRows tenantId identities excludeMemberId db).foldl
    (fun m row => mapSet m (identityKey row.2.1 row.2.2) row.1) [])

/-- The rows selected by `getIdentities(memberId, tenantId)` (lines 178–189). -/
def getIdentitiesRows (memberId tenantId : String)
    (db : List MemberIdentityRow) : List MemberIdentityRow :=
  db.filter fun mi => mi.memberId == memberId && mi.tenantId == tenantId

/-- Operation `getIdentities(memberId, tenantId)`: projects the selected rows to
`(sourceId, platform, username)`. -/
def getIdentities (memberId tenantId : String) (db : List MemberIdentityRow) :
    List (Option String × String × String) :=
  (getIdentitiesRows memberId tenantId db).map fun mi => (mi.sourceId, mi.platform, mi.username)

/-- Modelled from the spec: `RepositoryBase.checkUpdateRowCount` lives in the
external `@crowd/database` package of this repository, not under the analyzed
sources; per the spec it "detects a mismatch between requested and actual
deleted row count and must raise an explicit error naming the discrepancy
(expected vs. actual count)". -/
def checkUpdateRowCount (rowCount expected : Nat) : Except RepoError Unit :=
  if rowCount == expected then .ok () else .error (.rowCountMismatch expected rowCount)

/-- The delete condition of `removeIdentities` (lines 200–204): row belongs to
the member and tenant and its `(platform, username)` pair is among the spliced
input tuples. -/
def removeIdentitiesMatches (memberId tenantId : String)
    (identities : List MemberIdentityInput) (row : MemberIdentityRow) : Bool :=
  row.memberId == memberId && row.tenantId == tenantId
    && identities.any fun i => i.platform == row.platform && i.username == row.username

/-- Operation `removeIdentities(memberId, tenantId, identities)` (lines 191–213): a batch
delete (an empty input list makes the `in (...)` clause empty and the statement
a syntax error), followed by `checkUpdateRowCount(result.rowCount,
identities.length)`.  On success the remaining table state is returned. -/
def removeIdentities (memberId tenantId : String) (identities : List MemberIdentityInput)
    (db : List MemberIdentityRow) : Except RepoError (List MemberIdentityRow) :=
  if identities.isEmpty then .error .sqlSyntaxError
  else
    match checkUpdateRowCount
        (db.filter (removeIdentitiesMatches memberId tenantId identities)).length
        identities.length with
    | .ok _ => .ok (db.filter fun row => !removeIdentitiesMatches memberId tenantId identities row)
    | .error e => .error e

/-- Modelled from the spec for the conflict target: the schema's unique
constraint on `"memberSegments"` is declared outside the analyzed sources; per
the spec the table is keyed `(memberId, tenantId, segmentId)` and a duplicate
insert is a no-op.  `addToSegment` (lines 240–254) inserts with
`ON CONFLICT DO NOTHING`. -/
def addToSegment (memberId tenantId segmentId : String)
    (db : List MemberSegmentRow) : List MemberSegmentRow :=
  let row : MemberSegmentRow := ⟨memberId, tenantId, segmentId⟩
  if db.contains row then db else db ++ [row]

/-- The named options object of `getMemberIdsAndEmailsAndCount` with the
source's defaults (line 278). -/
structure ListingArgs where
  limit : Nat := 20
  offset : Nat := 0
  orderBy : String := "joinedAt_DESC"
  countOnly : Bool := false
deriving Repr

/-- The enumerated order-by fields of the `switch` at lines 284–300. -/
inductive OrderField
  | joinedAt
  | displayName
  | reach
  | score
deriving DecidableEq, Repr

/-- The `switch (orderByParts[0])` of lines 284–300: recognized fields map to a
sort column, anything else falls to the `default` branch (an error). -/
def parseOrderField (s : String) : Option OrderField :=
  if s == "joinedAt" then some .joinedAt
  else if s == "displayName" then some .displayName
  else if s == "reach" then some .reach
  else if s == "score" then some .score
  else none

/-- SQL acceptance of the interpolated direction word: after lowercasing,
`asc`/`desc` are explicit directions, the empty word leaves the engine's
default ascending order, anything else makes the listing statement invalid.
The boolean is `true` for descending. -/
def parseDirection (d : String) : Option Bool :=
  if d == "desc" then some true
  else if d == "asc" then some false
  else if d == "" then some false
  else none

/-- Comparison on the resolved sort column. -/
def fieldLe (f : OrderField) (a b : MemberRow) : Bool :=
  match f with
  | .joinedAt => a.joinedAt ≤ b.joinedAt
  | .displayName => a.displayName ≤ b.displayName
  | .reach => a.reachTotal ≤ b.reachTotal
  | .score => a.score ≤ b.score

/-- Order-by comparison with direction (`true` = descending). -/
def dirLe (desc : Bool) (f : OrderField) (a b : MemberRow) : Bool :=
  if desc then fieldLe f b a else fieldLe f a b

/-- Insertion into a sorted run, one linearization of the engine's sort. -/
def insertSorted (le : MemberRow → MemberRow → Bool) (x : MemberRow) :
    List MemberRow → List MemberRow
  | [] => [x]
  | y :: ys => if le x y then x :: y :: ys else y :: insertSorted le x ys

/-- Sorting the joined rows, one linearization of the engine's `ORDER BY`. -/
def sortRows (le : MemberRow → MemberRow → Bool) : List MemberRow → List MemberRow
  | [] => []
  | x :: xs => insertSorted le x (sortRows le xs)

/-- The joined rows shared by the count and listing statements of
`getMemberIdsAndEmailsAndCount` (lines 306–312 and 328–336): one row per pair
of a member of the tenant and a `memberSegments` row linking it to one of the
given segment ids (no `distinct`, so a member in several matching segments
appears once per link). -/
def memberSegmentPairs (tenantId : String) (segmentIds : List String)
    (members : List MemberRow) (segments : List MemberSegmentRow) :
    List (MemberRow × MemberSegmentRow) :=
  (members.filter fun m => m.tenantId == tenantId).flatMap fun m =>
    (segments.filter fun ms => ms.memberId == m.id && segmentIds.contains ms.segmentId).map
      fun ms => (m, ms)

/-- The value of the count statement (lines 304–318). -/
def memberCountValue (tenantId : String) (segmentIds : List String)
    (members : List MemberRow) (segments : List MemberSegmentRow) : Nat :=
  (memberSegmentPairs tenantId segmentIds members segments).length

/-- Splitting a character list on a separator character, keeping empty groups
(structurally recursive so that concrete instances evaluate). -/
def splitChars (sep : Char) : List Char → List (List Char)
  | [] => [[]]
  | c :: cs =>
    match splitChars sep cs with
    | [] => if c = sep then [[], []] else [[c]]
    | g :: gs => if c = sep then [] :: g :: gs else (c :: g) :: gs

/-- JS split of `orderBy` on the underscore separator (line 281): splitting on the underscore character,
always yielding at least one (possibly empty) part. -/
def splitUnderscore (s : String) : List String :=
  (splitChars (Char.ofNat 95) s.toList).map fun cs => String.mk cs

/-- The queries a call of `getMemberIdsAndEmailsAndCount` sends to storage. -/
inductive QueryEvent
  | countQuery
  | listQuery
deriving DecidableEq, Repr

/-- Operation `getMemberIdsAndEmailsAndCount(tenantId, segmentIds, opts)` (lines
275–349), paired with the trace of queries it sends.  Mirroring the source's
order: `orderBy` is split on `_` and `orderByParts[1].toLowerCase()` is read
before the `switch` (a missing direction part is a TypeError), an unrecognized
field throws `Invalid order by`, and only then is the count query issued;
`countOnly` short-circuits before the listing query.  A direction word the
engine rejects fails the listing statement after it is sent. -/
def getMemberIdsAndEmailsAndCount (tenantId : String) (segmentIds : List String)
    (args : ListingArgs) (members : List MemberRow) (segments : List MemberSegmentRow) :
    Except RepoError (Nat × List (String × List String)) × List QueryEvent :=
  match splitUnderscore args.orderBy with
  | p0 :: d :: _ =>
    match parseOrderField p0 with
    | none => (.error (.invalidOrderBy args.orderBy), [])
    | some f =>
      let cnt := memberCountValue tenantId segmentIds members segments
      if args.countOnly then (.ok (cnt, []), [.countQuery])
      else
        match parseDirection d.toLower with
        | none => (.error .sqlSyntaxError, [.countQuery, .listQuery])
        | some desc =>
          let rows := sortRows (dirLe desc f)
            ((memberSegmentPairs tenantId segmentIds members segments).map fun pr => pr.1)
          let page := (rows.drop args.offset).take args.limit
          (.ok (cnt, page.map fun m => (m.id, m.emails)), [.countQuery, .listQuery])
  | _ => (.error .typeError, [])

/-! ### Statement texts

The texts of the statements handed to the engine's parameter-substitution
mechanism (`db().any(text, params)` and friends), as the source builds them.
Named placeholders `$(name)` stay as placeholder text; only what the source
splices in by JS template-literal concatenation varies with the data. -/

/-- A raw single-quoted SQL literal, as produced by the template literals at
lines 93–95 and 196–198 (`\x27` is the single-quote character). -/
def sqlQuoted (s : String) : String :=
  "\x27" ++ s ++ "\x27"

/-- The spliced tuple list `('p1', 'u1'), ('p2', 'u2'), ...` of
`findIdentities` (lines 93–95) and `removeIdentities` (lines 196–198). -/
def identityTuplesText (identities : List MemberIdentityInput) : String :=
  String.intercalate ", " (identities.map fun i =>
    "(" ++ sqlQuoted i.platform ++ ", " ++ sqlQuoted i.username ++ ")")

/-- The statement text of `findIdentities` (lines 87–106): the tenant id and
the optional excluded member id are bound via the placeholders `$(tenantId)`
and `$(memberId)`, but the identity tuples are concatenated into the text. -/
def findIdentitiesStatement (tenantId : String) (identities : List MemberIdentityInput)
    (excludeMemberId : Option String) : String :=
  let _ := tenantId
  let condition :=
    match excludeMemberId with
    | some _ => "and \x22memberId\x22 <> $(memberId)"
    | none => ""
  "with input_identities (platform, username) as ( values "
    ++ identityTuplesText identities
    ++ " ) select \x22memberId\x22, i.platform, i.username from \x22memberIdentities\x22 mi"
    ++ " inner join input_identities i on mi.platform = i.platform and mi.username = i.username"
    ++ " where mi.\x22tenantId\x22 = $(tenantId) " ++ condition

/-- The statement text of `removeIdentities` (lines 200–204): member id and
tenant id are placeholders, the identity tuples are concatenated in. -/
def removeIdentitiesStatement (memberId tenantId : String)
    (identities : List MemberIdentityInput) : String :=
  let _ := memberId
  let _ := tenantId
  "delete from \x22memberIdentities\x22 where \x22memberId\x22 = $(memberId) and"
    ++ " \x22tenantId\x22 = $(tenantId) and (\x22platform\x22, \x22username\x22) in ("
    ++ identityTuplesText identities ++ ");"

/-- The statement text of `getIdentities` (lines 180–183): both values are
bound via placeholders, the text is a fixed string. -/
def getIdentitiesStatement (memberId tenantId : String) : String :=
  let _ := memberId
  let _ := tenantId
  "select \x22sourceId\x22, \x22platform\x22, \x22username\x22 from \x22memberIdentities\x22"
    ++ " where \x22memberId\x22 = $(memberId) and \x22tenantId\x22 = $(tenantId)"

/-! ### Helper lemmas -/

theorem oneOrNone_ok_some_mem {l : List α} {x : α}
    (h : oneOrNone l = .ok (some x)) : x ∈ l := by
  match l, h with
  | [r], h =>
    have : r = x := by
      simpa [oneOrNone] using h
    simp [this]

theorem oneOrNone_error_of_two {l : List α} {x y : α}
    (hx : x ∈ l) (hy : y ∈ l) (hne : x ≠ y) :
    oneOrNone l = .error .multipleRows := by
  cases l with
  | nil => cases hx
  | cons a rest =>
    cases rest with
    | nil =>
      simp at hx hy
      exact absurd (hx.trans hy.symm) hne
    | cons b rest2 => rfl

theorem oneOrNone_ok_of_length_le_one {l : List α} (h : l.length ≤ 1) :
    ∃ o, oneOrNone l = .ok o := by
  cases l with
  | nil => exact ⟨none, rfl⟩
  | cons a rest =>
    cases rest with
    | nil => exact ⟨some a, rfl⟩
    | cons b rest2 => simp at h

theorem oneOrNone_take_one (l : List α) : oneOrNone (l.take 1) = .ok l.head? := by
  cases l with
  | nil => rfl
  | cons a rest => rfl

theorem mem_mapSet {m : List (String × String)} {k' v' k v : String}
    (h : (k, v) ∈ mapSet m k' v') : (k, v) ∈ m ∨ (k = k' ∧ v = v') := by
  unfold mapSet at h
  split at h
  · rcases List.mem_map.mp h with ⟨kv, hkv, heq⟩
    by_cases hk : kv.1 == k'
    · right
      rw [if_pos hk] at heq
      exact ⟨(Prod.mk.injEq .. ▸ heq).1.symm, (Prod.mk.injEq .. ▸ heq).2.symm⟩
    · left
      rw [if_neg hk] at heq
      exact heq ▸ hkv
  · rcases List.mem_append.mp h with h1 | h1
    · exact Or.inl h1
    · right
      simp at h1
      exact h1

theorem hasKey_mapSet {m : List (String × String)} {k' v' k : String} :
    (∃ v, (k, v) ∈ mapSet m k' v') ↔ (∃ v, (k, v) ∈ m) ∨ k = k' := by
  constructor
  · rintro ⟨v, hv⟩
    rcases mem_mapSet hv with h | ⟨h1, _⟩
    · exact Or.inl ⟨v, h⟩
    · exact Or.inr h1
  · intro h
    unfold mapSet
    by_cases hany : m.any fun kv => kv.1 == k'
    · rw [if_pos hany]
      rcases h with ⟨v, hv⟩ | rfl
      · by_cases hk : k = k'
        · subst hk
          exact ⟨v', List.mem_map.mpr ⟨(k, v), hv, by simp⟩⟩
        · refine ⟨v, List.mem_map.mpr ⟨(k, v), hv, ?_⟩⟩
          simp [hk]
      · rcases List.any_eq_true.mp hany with ⟨kv, hkv, hkeq⟩
        refine ⟨v', List.mem_map.mpr ⟨kv, hkv, ?_⟩⟩
        simp [hkeq]
    · rw [if_neg hany]
      rcases h with ⟨v, hv⟩ | rfl
      · exact ⟨v, List.mem_append.mpr (Or.inl hv)⟩
      · exact ⟨v', List.mem_append.mpr (Or.inr (by simp))⟩

/-- Entries of the `findIdentities` result fold come from the join rows. -/
theorem mem_foldl_mapSet {rows : List (String × String × String)}
    {m0 : List (String × String)} {k v : String}
    (h : (k, v) ∈ rows.foldl (fun m row => mapSet m (identityKey row.2.1 row.2.2) row.1) m0) :
    (k, v) ∈ m0 ∨ ∃ row ∈ rows, k = identityKey row.2.1 row.2.2 ∧ v = row.1 := by
  induction rows generalizing m0 with
  | nil => exact Or.inl h
  | cons r rs ih =>
    rcases ih h with h1 | ⟨row, hrow, hk, hv⟩
    · rcases mem_mapSet h1 with h2 | ⟨hk, hv⟩
      · exact Or.inl h2
      · exact Or.inr ⟨r, by simp, hk, hv⟩
    · exact Or.inr ⟨row, by simp [hrow], hk, hv⟩

/-- A key is present in the `findIdentities` result fold iff it is the key of
one of the join rows (starting from the empty map). -/
theorem hasKey_foldl_mapSet {rows : List (String × String × String)}
    {m0 : List (String × String)} {k : String} :
    (∃ v, (k, v) ∈ rows.foldl (fun m row => mapSet m (identityKey row.2.1 row.2.2) row.1) m0) ↔
      (∃ v, (k, v) ∈ m0) ∨ ∃ row ∈ rows, k = identityKey row.2.1 row.2.2 := by
  induction rows generalizing m0 with
  | nil => simp
  | cons r rs ih =>
    constructor
    · intro h
      rcases ih.mp h with h1 | ⟨row, hrow, hk⟩
      · rcases hasKey_mapSet.mp h1 with h2 | h2
        · exact Or.inl h2
        · exact Or.inr ⟨r, by simp, h2⟩
      · exact Or.inr ⟨row, by simp [hrow], hk⟩
    · intro h
      apply ih.mpr
      rcases h with h1 | ⟨row, hrow, hk⟩
      · exact Or.inl (hasKey_mapSet.mpr (Or.inl h1))
      · rcases List.mem_cons.mp hrow with rfl | hrow2
        · exact Or.inl (hasKey_mapSet.mpr (Or.inr hk))
        · exact Or.inr ⟨row, hrow2, hk⟩

/-- Characterization of the join rows of `findIdentities`. -/
theorem mem_findIdentitiesRows {tenantId : String} {ids : List MemberIdentityInput}
    {ex : Option String} {db : List MemberIdentityRow}
    {row : String × String × String} :
    row ∈ findIdentitiesRows tenantId ids ex db ↔
      ∃ mi ∈ db, mi.tenantId = tenantId ∧ (∀ e, ex = some e → mi.memberId ≠ e) ∧
        row = (mi.memberId, mi.platform, mi.username) ∧
        ∃ i ∈ ids, mi.platform = i.platform ∧ mi.username = i.username := by
  unfold findIdentitiesRows
  rw [List.mem_flatMap]
  constructor
  · rintro ⟨mi, hmi, hrow⟩
    split at hrow
    · next hcond =>
      rcases List.mem_map.mp hrow with ⟨i, hi, heq⟩
      rw [List.mem_filter] at hi
      refine ⟨mi, hmi, ?_, ?_, heq.symm, i, hi.1, ?_, ?_⟩
      · have := (Bool.and_eq_true ..).mp hcond
        simpa using this.1
      · intro e hee
        have := (Bool.and_eq_true ..).mp hcond
        rw [hee] at this
        simpa using this.2
      · have := (Bool.and_eq_true ..).mp hi.2
        simpa using this.1
      · have := (Bool.and_eq_true ..).mp hi.2
        simpa using this.2
    · cases hrow
  · rintro ⟨mi, hmi, htenant, hex, hrow, i, hi, hplat, huser⟩
    refine ⟨mi, hmi, ?_⟩
    rw [if_pos ?_]
    · exact List.mem_map.mpr ⟨i, List.mem_filter.mpr ⟨hi, by simp [hplat, huser]⟩, hrow.symm⟩
    · cases ex with
      | none => simp [htenant]
      | some e => simp [htenant, hex e rfl]

theorem mem_insertSorted {le : MemberRow → MemberRow → Bool} {x y : MemberRow}
    {l : List MemberRow} : x ∈ insertSorted le y l ↔ x = y ∨ x ∈ l := by
  induction l with
  | nil => simp [insertSorted]
  | cons a rest ih =>
    unfold insertSorted
    split
    · simp
    · rw [List.mem_cons, List.mem_cons, ih]
      tauto

theorem mem_sortRows {le : MemberRow → MemberRow → Bool} {x : MemberRow}
    {l : List MemberRow} : x ∈ sortRows le l ↔ x ∈ l := by
  induction l with
  | nil => simp [sortRows]
  | cons a rest ih =>
    unfold sortRows
    rw [mem_insertSorted, ih, List.mem_cons]

theorem mem_memberSegmentPairs {tenantId : String} {segmentIds : List String}
    {members : List MemberRow} {segments : List MemberSegmentRow}
    {pr : MemberRow × MemberSegmentRow} :
    pr ∈ memberSegmentPairs tenantId segmentIds members segments ↔
      pr.1 ∈ members ∧ pr.1.tenantId = tenantId ∧ pr.2 ∈ segments ∧
        pr.2.memberId = pr.1.id ∧ pr.2.segmentId ∈ segmentIds := by
  unfold memberSegmentPairs
  rw [List.mem_flatMap]
  constructor
  · rintro ⟨m, hm, hpr⟩
    rcases List.mem_map.mp hpr with ⟨ms, hms, heq⟩
    rw [List.mem_filter] at hm hms
    subst heq
    have hms2 := (Bool.and_eq_true ..).mp hms.2
    refine ⟨hm.1, by simpa using hm.2, hms.1, by simpa using hms2.1, by simpa using hms2.2⟩
  · rintro ⟨hm, ht, hms, hlink, hseg⟩
    refine ⟨pr.1, List.mem_filter.mpr ⟨hm, by simp [ht]⟩, ?_⟩
    exact List.mem_map.mpr ⟨pr.2, List.mem_filter.mpr ⟨hms, by simp [hlink, hseg]⟩, rfl⟩

/-- Every entry of a successful `findIdentities` result originates in a stored
identity row of the tenant that matches one of the input tuples and respects
the exclusion. -/
theorem findIdentities_entry_source {tenantId : String} {ids : List MemberIdentityInput}
    {ex : Option String} {db : List MemberIdentityRow} {res : List (String × String)}
    (hok : findIdentities tenantId ids ex db = .ok res) :
    ∀ k v, (k, v) ∈ res → ∃ mi ∈ db, mi.tenantId = tenantId ∧
      (∀ e, ex = some e → mi.memberId ≠ e) ∧ v = mi.memberId ∧
      k = identityKey mi.platform mi.username ∧
      ∃ i ∈ ids, mi.platform = i.platform ∧ mi.username = i.username := by
  intro k v hkv
  unfold findIdentities at hok
  split at hok
  · cases hok
  · have hres := (Except.ok.injEq ..).mp hok
    rw [← hres] at hkv
    rcases mem_foldl_mapSet hkv with h | ⟨row, hrow, hk, hv⟩
    · cases h
    · rcases mem_findIdentitiesRows.mp hrow with ⟨mi, hmi, ht, hex, hroweq, i, hi, hplat, huser⟩
      subst hroweq
      exact ⟨mi, hmi, ht, hex, hv, hk, i, hi, hplat, huser⟩

/-- A key is present in a successful `findIdentities` result iff some input
tuple with that key matches a stored identity row of the tenant respecting the
exclusion. -/
theorem findIdentities_hasKey_iff {tenantId : String} {ids : List MemberIdentityInput}
    {ex : Option String} {db : List MemberIdentityRow} {res : List (String × String)}
    (hok : findIdentities tenantId ids ex db = .ok res) :
    ∀ k, (∃ v, (k, v) ∈ res) ↔
      ∃ i ∈ ids, k = identityKey i.platform i.username ∧
        ∃ mi ∈ db, mi.tenantId = tenantId ∧ mi.platform = i.platform ∧
          mi.username = i.username ∧ ∀ e, ex = some e → mi.memberId ≠ e := by
  intro k
  unfold findIdentities at hok
  split at hok
  · cases hok
  · have hres := (Except.ok.injEq ..).mp hok
    rw [← hres]
    rw [hasKey_foldl_mapSet]
    constructor
    · intro h
      rcases h with ⟨v, hv⟩ | ⟨row, hrow, hk⟩
      · cases hv
      · rcases mem_findIdentitiesRows.mp hrow with ⟨mi, hmi, ht, hex, hroweq, i, hi, hplat, huser⟩
        subst hroweq
        refine ⟨i, hi, by rw [hk, hplat, huser], mi, hmi, ht, hplat, huser, hex⟩
    · rintro ⟨i, hi, hk, mi, hmi, ht, hplat, huser, hex⟩
      refine Or.inr ⟨(mi.memberId, mi.platform, mi.username), ?_, by rw [hk, hplat, huser]⟩
      exact mem_findIdentitiesRows.mpr ⟨mi, hmi, ht, hex, rfl, i, hi, hplat, huser⟩

/-! ### Claim theorems -/

/-- C1: `update(id, tenantId, data)` writes a row only when it matches `id` and
`tenantId` and its stored `updatedAt` is strictly older than the fresh stamp;
in particular, when every row matching the id and tenant has a stored
`updatedAt` equal to or later than the new stamp, the update affects zero rows
and leaves every stored field of every row unchanged. -/
theorem update_guard_stale_noop (id tenantId : String) (data : MemberUpdateData)
    (now : Nat) (members : List MemberRow) :
    (∀ r ∈ members, ¬(r.id = id ∧ r.tenantId = tenantId ∧ r.updatedAt < now) →
      r ∈ (update id tenantId data now members).1) ∧
    ((∀ r ∈ members, r.id = id → r.tenantId = tenantId → now ≤ r.updatedAt) →
      update id tenantId data now members = (members, 0)) := by
  constructor
  · intro r hr hno
    have hfalse : updateMatches id tenantId now r = false := by
      unfold updateMatches
      simp only [Bool.and_eq_false_iff]
      by_cases h1 : r.id = id
      · by_cases h2 : r.tenantId = tenantId
        · right
          simpa using fun h => hno ⟨h1, h2, h⟩
        · left
          right
          simp [h2]
      · left
        left
        simp [h1]
    unfold update
    simp only
    exact List.mem_map.mpr ⟨r, hr, by rw [hfalse]; simp⟩
  · intro hstale
    have hfalse : ∀ r ∈ members, updateMatches id tenantId now r = false := by
      intro r hr
      unfold updateMatches
      by_cases h1 : r.id = id
      · by_cases h2 : r.tenantId = tenantId
        · have := hstale r hr h1 h2
          simp [h1, h2, Nat.not_lt.mpr this]
        · simp [h2]
      · simp [h1]
    unfold update
    rw [Prod.mk.injEq]
    constructor
    · calc (members.map fun r =>
            if updateMatches id tenantId now r then applyUpdate data now r else r)
          = members.map (fun r => r) := List.map_congr_left fun r hr => by rw [hfalse r hr]; simp
      _ = members := by simp
    · have hnil : members.filter (updateMatches id tenantId now) = [] := by
        rw [List.filter_eq_nil_iff]
        intro r hr
        simp [hfalse r hr]
      rw [hnil]
      rfl

/-- Witness for C1 at a concrete table: the row's stored `updatedAt` equals the
fresh stamp, so the update is a no-op with zero affected rows. -/
theorem update_guard_stale_noop_witness :
    update "m1" "t1" { displayName := some "B" } 5
        [⟨"m1", "t1", "A", [], 3, 1, 2, .serialized "[]", 0, 5⟩] =
      ([⟨"m1", "t1", "A", [], 3, 1, 2, .serialized "[]", 0, 5⟩], 0) :=
  (update_guard_stale_noop "m1" "t1" { displayName := some "B" } 5
    [⟨"m1", "t1", "A", [], 3, 1, 2, .serialized "[]", 0, 5⟩]).2 (by decide)

/-- C6 counterexample: with `data.weakIdentities` present but empty, the
`weakIdentities` key is still in `Object.keys(data)` and hence in the dynamic
column set, so the stored column is overwritten (with the raw empty array, not
serialized text) instead of being left untouched. -/
theorem update_empty_weakIdentities_overwrites :
    (update "m1" "t1" { weakIdentities := some [] } 6
        [⟨"m1", "t1", "A", [], 3, 1, 2, .serialized "[\x7b\x7d]", 0, 5⟩]).1 ≠
      [⟨"m1", "t1", "A", [], 3, 1, 2, .serialized "[\x7b\x7d]", 0, 6⟩] ∧
    ((update "m1" "t1" { weakIdentities := some [] } 6
        [⟨"m1", "t1", "A", [], 3, 1, 2, .serialized "[\x7b\x7d]", 0, 5⟩]).1.map
      fun r => r.weakIdentities) = [.rawArray []] := by
  constructor
  · decide
  · decide

/-- C6 (amended): on a row the `update` guard accepts, `weakIdentities` present
and non-empty in `data` is JSON-serialized before being written; absent leaves
the stored column untouched; present but empty overwrites the column with the
raw (unserialized) empty array because the key still enters the dynamic column
set. -/
theorem update_weakIdentities_asymmetry (id tenantId : String) (data : MemberUpdateData)
    (now : Nat) (r : MemberRow) (hmatch : updateMatches id tenantId now r = true) :
    ∀ r' ∈ (update id tenantId data now [r]).1,
      (data.weakIdentities = none → r'.weakIdentities = r.weakIdentities) ∧
      (∀ w ws, data.weakIdentities = some (w :: ws) →
        r'.weakIdentities = .serialized (jsonStringify (w :: ws))) ∧
      (data.weakIdentities = some [] → r'.weakIdentities = .rawArray []) := by
  intro r' hr'
  have hr'eq : r' = applyUpdate data now r := by
    unfold update at hr'
    simp only [List.map_cons, List.map_nil, hmatch, if_true] at hr'
    simpa using hr'
  subst hr'eq
  refine ⟨?_, ?_, ?_⟩
  · intro hnone
    simp [applyUpdate, hnone]
  · intro w ws hsome
    simp [applyUpdate, hsome]
  · intro hempty
    simp [applyUpdate, hempty]

/-- Witness for C6's amended theorem at a concrete row and update. -/
theorem update_weakIdentities_asymmetry_witness :
    ((update "m1" "t1" { weakIdentities := some [⟨"gh", "al"⟩] } 6
        [⟨"m1", "t1", "A", [], 3, 1, 2, .serialized "[]", 0, 5⟩]).1.map
      fun r => r.weakIdentities) = [.serialized (jsonStringify [⟨"gh", "al"⟩])] := by
  have h2 := (update_weakIdentities_asymmetry "m1" "t1"
    { weakIdentities := some [⟨"gh", "al"⟩] } 6
    ⟨"m1", "t1", "A", [], 3, 1, 2, .serialized "[]", 0, 5⟩ (by decide)
    (applyUpdate { weakIdentities := some [⟨"gh", "al"⟩] } 6
      ⟨"m1", "t1", "A", [], 3, 1, 2, .serialized "[]", 0, 5⟩)
    (List.Mem.head _)).2.1 ⟨"gh", "al"⟩ [] rfl
  show [(applyUpdate { weakIdentities := some [⟨"gh", "al"⟩] } 6
    ⟨"m1", "t1", "A", [], 3, 1, 2, .serialized "[]", 0, 5⟩).weakIdentities] =
    [.serialized (jsonStringify [⟨"gh", "al"⟩])]
  rw [h2]

/-- C9: `addToSegment` is idempotent — the second identical call is a conflict
no-op (`ON CONFLICT DO NOTHING`), and starting from a table without the row,
two identical calls leave exactly one matching row. -/
theorem addToSegment_idempotent (memberId tenantId segmentId : String)
    (db : List MemberSegmentRow)
    (h : (⟨memberId, tenantId, segmentId⟩ : MemberSegmentRow) ∉ db) :
    addToSegment memberId tenantId segmentId
        (addToSegment memberId tenantId segmentId db) =
      addToSegment memberId tenantId segmentId db ∧
    (addToSegment memberId tenantId segmentId
        (addToSegment memberId tenantId segmentId db)).count
      (⟨memberId, tenantId, segmentId⟩ : MemberSegmentRow) = 1 := by
  have hfirst : addToSegment memberId tenantId segmentId db =
      db ++ [(⟨memberId, tenantId, segmentId⟩ : MemberSegmentRow)] := by
    unfold addToSegment
    rw [if_neg]
    simpa using h
  have hsecond : addToSegment memberId tenantId segmentId
      (addToSegment memberId tenantId segmentId db) =
      addToSegment memberId tenantId segmentId db := by
    rw [hfirst]
    unfold addToSegment
    rw [if_pos (by simp)]
  refine ⟨hsecond, ?_⟩
  rw [hsecond, hfirst, List.count_append]
  rw [List.count_eq_zero.mpr h]
  simp

/-- Witness for C9 starting from the empty link table. -/
theorem addToSegment_idempotent_witness :
    addToSegment "m1" "t1" "s1" (addToSegment "m1" "t1" "s1" []) =
      addToSegment "m1" "t1" "s1" [] ∧
    (addToSegment "m1" "t1" "s1" (addToSegment "m1" "t1" "s1" [])).count
      (⟨"m1", "t1", "s1"⟩ : MemberSegmentRow) = 1 :=
  addToSegment_idempotent "m1" "t1" "s1" [] (by decide)

/-- C2: `removeIdentities` deletes by exact `(platform, username)` tuple match
scoped to `memberId`/`tenantId` and then checks the affected-row count: any
mismatch with the number of requested identities is surfaced as an explicit
error naming expected and actual counts, and the call succeeds only when the
counts agree — a mismatch is never silently ignored. -/
theorem removeIdentities_rowcount_mismatch_error (memberId tenantId : String)
    (identities : List MemberIdentityInput) (db : List MemberIdentityRow) :
    (identities ≠ [] →
      (db.filter (removeIdentitiesMatches memberId tenantId identities)).length ≠
        identities.length →
      removeIdentities memberId tenantId identities db =
        .error (.rowCountMismatch identities.length
          (db.filter (removeIdentitiesMatches memberId tenantId identities)).length)) ∧
    (∀ rest, removeIdentities memberId tenantId identities db = .ok rest →
      (db.filter (removeIdentitiesMatches memberId tenantId identities)).length =
        identities.length) := by
  constructor
  · intro hne hmis
    unfold removeIdentities
    rw [if_neg (by simpa using hne)]
    unfold checkUpdateRowCount
    rw [if_neg (by simpa using hmis)]
  · intro rest hok
    unfold removeIdentities at hok
    split at hok
    · cases hok
    · unfold checkUpdateRowCount at hok
      split at hok
      · next hc => simpa using hc
      · cases hok

/-- Witness for C2: two identities requested, only one stored row matches, so
the call raises `rowCountMismatch 2 1`; and a concrete successful call whose
affected-row count equals the requested count. -/
theorem removeIdentities_rowcount_mismatch_error_witness :
    removeIdentities "m1" "t1" [⟨"gh", "al", none⟩, ⟨"gh", "qq", none⟩]
        [⟨"m1", "t1", "i1", "gh", "al", none⟩] =
      .error (.rowCountMismatch 2 1) :=
  (removeIdentities_rowcount_mismatch_error "m1" "t1"
    [⟨"gh", "al", none⟩, ⟨"gh", "qq", none⟩]
    [⟨"m1", "t1", "i1", "gh", "al", none⟩]).1 (by decide) (by decide)

/-- C7: when the field part of `orderBy` (the text before the first `_`) is not
one of `joinedAt`, `displayName`, `reach`, `score`, the call errors
synchronously and sends no query to storage; when a direction part is present,
the error is the descriptive `Invalid order by` validation error. -/
theorem getMemberIds_invalid_orderBy_fails_fast (tenantId : String)
    (segmentIds : List String) (args : ListingArgs)
    (members : List MemberRow) (segments : List MemberSegmentRow)
    (hbad : parseOrderField ((splitUnderscore args.orderBy).headD "") = none) :
    (∃ e, (getMemberIdsAndEmailsAndCount tenantId segmentIds args members segments).1 =
      .error e) ∧
    (getMemberIdsAndEmailsAndCount tenantId segmentIds args members segments).2 = [] ∧
    (∀ p d rest, splitUnderscore args.orderBy = p :: d :: rest →
      (getMemberIdsAndEmailsAndCount tenantId segmentIds args members segments).1 =
        .error (.invalidOrderBy args.orderBy)) := by
  unfold getMemberIdsAndEmailsAndCount
  cases hsplit : splitUnderscore args.orderBy with
  | nil =>
    exact ⟨⟨.typeError, rfl⟩, rfl, by intro p d rest hh; cases hh⟩
  | cons p0 rest0 =>
    cases rest0 with
    | nil =>
      exact ⟨⟨.typeError, rfl⟩, rfl, by intro p d rest hh; simp at hh⟩
    | cons d0 rest1 =>
      have hp : parseOrderField p0 = none := by
        rw [hsplit] at hbad
        simpa using hbad
      refine ⟨⟨.invalidOrderBy args.orderBy, ?_⟩, ?_, ?_⟩ <;> simp [hp]

/-- Witness for C7 at `orderBy = "bogus_ASC"`: the descriptive validation error
is raised and the query trace is empty. -/
theorem getMemberIds_invalid_orderBy_fails_fast_witness :
    (getMemberIdsAndEmailsAndCount "t1" ["s1"] { orderBy := "bogus_ASC" } [] []).1 =
      .error (.invalidOrderBy "bogus_ASC") ∧
    (getMemberIdsAndEmailsAndCount "t1" ["s1"] { orderBy := "bogus_ASC" } [] []).2 = [] := by
  have h := getMemberIds_invalid_orderBy_fails_fast "t1" ["s1"] { orderBy := "bogus_ASC" }
    [] [] (by decide)
  exact ⟨h.2.2 "bogus" "ASC" [] (by decide), h.2.1⟩

/-- C8: with `countOnly = true` (and a recognized order-by field, which is
validated first), only the count query is sent, the member list is empty, and
the returned `totalCount` is the same count the identical call with
`countOnly = false` returns whenever that call succeeds. -/
theorem getMemberIds_countOnly_only_count_query (tenantId : String)
    (segmentIds : List String) (args : ListingArgs)
    (members : List MemberRow) (segments : List MemberSegmentRow)
    (p d : String) (rest : List String) (f : OrderField)
    (hsplit : splitUnderscore args.orderBy = p :: d :: rest)
    (hfield : parseOrderField p = some f)
    (hco : args.countOnly = true) :
    getMemberIdsAndEmailsAndCount tenantId segmentIds args members segments =
      (.ok (memberCountValue tenantId segmentIds members segments, []),
        [.countQuery]) ∧
    (∀ c ms, (getMemberIdsAndEmailsAndCount tenantId segmentIds
        { args with countOnly := false } members segments).1 = .ok (c, ms) →
      c = memberCountValue tenantId segmentIds members segments) := by
  constructor
  · simp only [getMemberIdsAndEmailsAndCount, hsplit, hfield, hco, if_true]
  · intro c ms h
    simp only [getMemberIdsAndEmailsAndCount, hsplit, hfield] at h
    split at h
    · next hff => cases hff
    · split at h
      · cases h
      · have := (Except.ok.injEq ..).mp h
        exact ((Prod.mk.injEq ..).mp this).1.symm

/-- Witness for C8 at a concrete store: one tenant member linked to the
segment; `countOnly = true` runs only the count query and returns count 1. -/
theorem getMemberIds_countOnly_only_count_query_witness :
    getMemberIdsAndEmailsAndCount "t1" ["s1"] { countOnly := true }
        [⟨"m1", "t1", "A", ["a@x"], 3, 1, 2, .serialized "[]", 0, 5⟩]
        [⟨"m1", "t1", "s1"⟩] =
      (.ok (1, []), [.countQuery]) :=
  (getMemberIds_countOnly_only_count_query "t1" ["s1"] { countOnly := true }
    [⟨"m1", "t1", "A", ["a@x"], 3, 1, 2, .serialized "[]", 0, 5⟩]
    [⟨"m1", "t1", "s1"⟩] "joinedAt" "DESC" [] .joinedAt (by decide) (by decide) rfl).1

/-- C10: `findMember` performs a zero-or-one fetch with no row limit: when two
distinct members (distinct ids) both own identity rows matching the tenant,
platform and username, the call errors rather than returning one of them; it
returns a value only when at most one member row matches.  `findMemberByEmail`
instead limits to one row and always returns the first match. -/
theorem findMember_multiple_owners_errors (tenantId segmentId platform username : String)
    (members : List MemberRow) (identities : List MemberIdentityRow) :
    (∀ m1 m2 mi1 mi2, m1 ∈ members → m2 ∈ members → m1.id ≠ m2.id →
      mi1 ∈ identities → mi2 ∈ identities →
      mi1.tenantId = tenantId → mi1.platform = platform → mi1.username = username →
      mi2.tenantId = tenantId → mi2.platform = platform → mi2.username = username →
      mi1.memberId = m1.id → mi2.memberId = m2.id →
      findMember tenantId segmentId platform username members identities =
        .error .multipleRows) ∧
    ((findMemberRows tenantId platform username members identities).length ≤ 1 →
      ∃ o, findMember tenantId segmentId platform username members identities = .ok o) ∧
    (∀ email, findMemberByEmail tenantId email members =
      .ok ((members.filter fun m => m.tenantId == tenantId && m.emails.contains email).head?)) := by
  refine ⟨?_, ?_, ?_⟩
  · intro m1 m2 mi1 mi2 hm1 hm2 hne hmi1 hmi2 ht1 hp1 hu1 ht2 hp2 hu2 ho1 ho2
    have hrow : ∀ (m : MemberRow) (mi : MemberIdentityRow), m ∈ members → mi ∈ identities →
        mi.tenantId = tenantId → mi.platform = platform → mi.username = username →
        mi.memberId = m.id →
        m ∈ findMemberRows tenantId platform username members identities := by
      intro m mi hm hmi ht hp hu ho
      unfold findMemberRows
      refine List.mem_filter.mpr ⟨hm, ?_⟩
      have : m.id ∈ (identities.filter fun mi2 =>
          mi2.tenantId == tenantId && mi2.platform == platform &&
            mi2.username == username).map fun mi2 => mi2.memberId :=
        List.mem_map.mpr ⟨mi, List.mem_filter.mpr ⟨hmi, by simp [ht, hp, hu]⟩, ho⟩
      simpa using this
    have h1 := hrow m1 mi1 hm1 hmi1 ht1 hp1 hu1 ho1
    have h2 := hrow m2 mi2 hm2 hmi2 ht2 hp2 hu2 ho2
    have hmne : m1 ≠ m2 := fun hcontra => hne (by rw [hcontra])
    unfold findMember
    exact oneOrNone_error_of_two h1 h2 hmne
  · intro hlen
    unfold findMember
    exact oneOrNone_ok_of_length_le_one hlen
  · intro email
    unfold findMemberByEmail
    exact oneOrNone_take_one _

/-- Witness for C10: two members of the same tenant both own the identity
`gh/al`, so `findMember` errors while `findMemberByEmail` still returns the
first of two members sharing an email. -/
theorem findMember_multiple_owners_errors_witness :
    findMember "t1" "s1" "gh" "al"
        [⟨"m1", "t1", "A", ["a@x"], 3, 1, 2, .serialized "[]", 0, 5⟩,
          ⟨"m2", "t1", "B", ["a@x"], 4, 1, 2, .serialized "[]", 0, 5⟩]
        [⟨"m1", "t1", "i1", "gh", "al", none⟩, ⟨"m2", "t1", "i1", "gh", "al", none⟩] =
      .error .multipleRows ∧
    findMemberByEmail "t1" "a@x"
        [⟨"m1", "t1", "A", ["a@x"], 3, 1, 2, .serialized "[]", 0, 5⟩,
          ⟨"m2", "t1", "B", ["a@x"], 4, 1, 2, .serialized "[]", 0, 5⟩] =
      .ok (some ⟨"m1", "t1", "A", ["a@x"], 3, 1, 2, .serialized "[]", 0, 5⟩) := by
  have h := findMember_multiple_owners_errors "t1" "s1" "gh" "al"
    [⟨"m1", "t1", "A", ["a@x"], 3, 1, 2, .serialized "[]", 0, 5⟩,
      ⟨"m2", "t1", "B", ["a@x"], 4, 1, 2, .serialized "[]", 0, 5⟩]
    [⟨"m1", "t1", "i1", "gh", "al", none⟩, ⟨"m2", "t1", "i1", "gh", "al", none⟩]
  refine ⟨h.1 ⟨"m1", "t1", "A", ["a@x"], 3, 1, 2, .serialized "[]", 0, 5⟩
    ⟨"m2", "t1", "B", ["a@x"], 4, 1, 2, .serialized "[]", 0, 5⟩
    ⟨"m1", "t1", "i1", "gh", "al", none⟩ ⟨"m2", "t1", "i1", "gh", "al", none⟩
    (by decide) (by decide) (by decide) (by decide) (by decide)
    rfl rfl rfl rfl rfl rfl rfl rfl, ?_⟩
  rw [h.2.2 "a@x"]
  rfl

/-- C5 counterexample: the statement texts of `findIdentities` and
`removeIdentities` depend on the caller-supplied platform/username values —
the tuples are concatenated into the SQL text instead of being passed through
the named-placeholder mechanism, so two calls differing only in data produce
different statement texts. -/
theorem statement_text_depends_on_identity_values :
    findIdentitiesStatement "t1" [⟨"github", "alice", none⟩] none ≠
      findIdentitiesStatement "t1" [⟨"github", "bob", none⟩] none ∧
    removeIdentitiesStatement "m1" "t1" [⟨"github", "alice", none⟩] ≠
      removeIdentitiesStatement "m1" "t1" [⟨"github", "bob", none⟩] := by
  constructor
  · decide
  · decide

/-- C5 (amended): all caller-supplied values except the identity tuples of
`findIdentities` and `removeIdentities` reach the engine through named
placeholders — the statement texts are independent of the tenant id, member
id and exclusion value (only the presence of an exclusion changes the text) —
while the identity platform/username values are spliced into the text. -/
theorem placeholder_binding_except_identity_tuples (t1 t2 m1 m2 : String)
    (ids : List MemberIdentityInput) (ex1 ex2 : Option String)
    (hex : ex1.isSome = ex2.isSome) :
    findIdentitiesStatement t1 ids ex1 = findIdentitiesStatement t2 ids ex2 ∧
    removeIdentitiesStatement m1 t1 ids = removeIdentitiesStatement m2 t2 ids ∧
    getIdentitiesStatement m1 t1 = getIdentitiesStatement m2 t2 := by
  refine ⟨?_, rfl, rfl⟩
  cases ex1 with
  | none =>
    cases ex2 with
    | none => rfl
    | some e => cases hex
  | some e =>
    cases ex2 with
    | none => cases hex
    | some e2 => rfl

/-- Witness for C5's amended theorem: changing tenant and member-id values
leaves the `findIdentities` statement text unchanged. -/
theorem placeholder_binding_except_identity_tuples_witness :
    findIdentitiesStatement "t1" [⟨"gh", "al", none⟩] (some "mA") =
      findIdentitiesStatement "t2" [⟨"gh", "al", none⟩] (some "mB") ∧
    removeIdentitiesStatement "m1" "t1" [⟨"gh", "al", none⟩] =
      removeIdentitiesStatement "m2" "t2" [⟨"gh", "al", none⟩] :=
  ⟨(placeholder_binding_except_identity_tuples "t1" "t2" "m1" "m2"
      [⟨"gh", "al", none⟩] (some "mA") (some "mB") rfl).1,
    (placeholder_binding_except_identity_tuples "t1" "t2" "m1" "m2"
      [⟨"gh", "al", none⟩] (some "mA") (some "mB") rfl).2.1⟩

/-- C4 counterexample: with an empty input list the spliced `values ${...}`
clause of `findIdentities` is empty and the statement is malformed, so the call
fails with a storage error instead of returning the empty mapping the claim
requires for a list none of whose tuples resolves. -/
theorem findIdentities_empty_input_counterexample :
    findIdentities "t1" [] none [] = .error .sqlSyntaxError ∧
    findIdentities "t1" [] none [] ≠ .ok [] :=
  ⟨rfl, fun h => Except.noConfusion h⟩

/-- C4 (amended): for every non-empty input list, `findIdentities` succeeds
and returns a mapping whose keys are exactly the `platform:username` strings
of input tuples matched by some stored identity row of the tenant (excluding
rows owned by `excludeMemberId` when supplied), with every entry's value the
`memberId` of such a matching stored row; tuples absent from storage never
appear, and the mapping is empty when no input tuple resolves.  (With an empty
input list the generated statement is malformed and the call errors.) -/
theorem findIdentities_key_characterization (tenantId : String)
    (ids : List MemberIdentityInput) (ex : Option String) (db : List MemberIdentityRow)
    (hne : ids ≠ []) :
    ∃ res, findIdentities tenantId ids ex db = .ok res ∧
      (∀ k, (∃ v, (k, v) ∈ res) ↔
        ∃ i ∈ ids, k = identityKey i.platform i.username ∧
          ∃ mi ∈ db, mi.tenantId = tenantId ∧ mi.platform = i.platform ∧
            mi.username = i.username ∧ ∀ e, ex = some e → mi.memberId ≠ e) ∧
      (∀ k v, (k, v) ∈ res → ∃ mi ∈ db, mi.tenantId = tenantId ∧
        v = mi.memberId ∧ k = identityKey mi.platform mi.username ∧
        (∀ e, ex = some e → mi.memberId ≠ e) ∧
        ∃ i ∈ ids, mi.platform = i.platform ∧ mi.username = i.username) := by
  have hok : ∃ res, findIdentities tenantId ids ex db = .ok res := by
    unfold findIdentities
    rw [if_neg (by simpa using hne)]
    exact ⟨_, rfl⟩
  rcases hok with ⟨res, hres⟩
  refine ⟨res, hres, findIdentities_hasKey_iff hres, ?_⟩
  intro k v hkv
  rcases findIdentities_entry_source hres k v hkv with
    ⟨mi, hmi, ht, hexx, hv, hk, i, hi, hplat, huser⟩
  exact ⟨mi, hmi, ht, hv, hk, hexx, i, hi, hplat, huser⟩

/-- Witness for C4's amended theorem at a concrete store: one of the two
requested tuples resolves. -/
theorem findIdentities_key_characterization_witness :
    ∃ res, findIdentities "t1" [⟨"gh", "al", none⟩, ⟨"gh", "zz", none⟩] none
        [⟨"m1", "t1", "i1", "gh", "al", none⟩] = .ok res ∧
      (∀ k, (∃ v, (k, v) ∈ res) ↔
        ∃ i ∈ [(⟨"gh", "al", none⟩ : MemberIdentityInput), ⟨"gh", "zz", none⟩],
          k = identityKey i.platform i.username ∧
          ∃ mi ∈ [(⟨"m1", "t1", "i1", "gh", "al", none⟩ : MemberIdentityRow)],
            mi.tenantId = "t1" ∧ mi.platform = i.platform ∧
            mi.username = i.username ∧ ∀ e, (none : Option String) = some e → mi.memberId ≠ e) ∧
      (∀ k v, (k, v) ∈ res →
        ∃ mi ∈ [(⟨"m1", "t1", "i1", "gh", "al", none⟩ : MemberIdentityRow)],
          mi.tenantId = "t1" ∧ v = mi.memberId ∧ k = identityKey mi.platform mi.username ∧
          (∀ e, (none : Option String) = some e → mi.memberId ≠ e) ∧
          ∃ i ∈ [(⟨"gh", "al", none⟩ : MemberIdentityInput), ⟨"gh", "zz", none⟩],
            mi.platform = i.platform ∧ mi.username = i.username) :=
  findIdentities_key_characterization "t1" [⟨"gh", "al", none⟩, ⟨"gh", "zz", none⟩] none
    [⟨"m1", "t1", "i1", "gh", "al", none⟩] (by decide)

/-- C3: tenant isolation.  In a store whose identity rows are tenant-consistent
with their owning member rows and whose member ids are unique, a member stored
under tenant `T1 ≠ T2` is never returned by any lookup scoped to `T2`:
`findMemberByEmail` and `findMember` never yield it, `findIdentities` never
maps any key to its id, `getIdentities` selects none of its rows, and the
paginated listing never lists its id — every read filters by the supplied
`tenantId`. -/
theorem tenant_isolation (T1 T2 : String) (hne : T1 ≠ T2)
    (members : List MemberRow) (identities : List MemberIdentityRow)
    (segments : List MemberSegmentRow) (m : MemberRow)
    (hm : m ∈ members) (hT1 : m.tenantId = T1)
    (htc : ∀ mi ∈ identities, ∀ mem ∈ members, mi.memberId = mem.id →
      mi.tenantId = mem.tenantId)
    (huniq : ∀ m2 ∈ members, m2.id = m.id → m2 = m) :
    (∀ e o, findMemberByEmail T2 e members = .ok o → o ≠ some m) ∧
    (∀ sg p u o, findMember T2 sg p u members identities = .ok o → o ≠ some m) ∧
    (∀ ids ex res, findIdentities T2 ids ex identities = .ok res →
      ∀ k v, (k, v) ∈ res → v ≠ m.id) ∧
    getIdentitiesRows m.id T2 identities = [] ∧
    (∀ segIds args c lst,
      (getMemberIdsAndEmailsAndCount T2 segIds args members segments).1 = .ok (c, lst) →
      ∀ en ∈ lst, en.1 ≠ m.id) := by
  have hT2ne : m.tenantId ≠ T2 := fun hcontra => hne (by rw [← hT1, hcontra])
  refine ⟨?_, ?_, ?_, ?_, ?_⟩
  · intro e o hok hcontra
    subst hcontra
    unfold findMemberByEmail at hok
    have hmem := List.take_subset 1 _ (oneOrNone_ok_some_mem hok)
    have hmf := List.mem_filter.mp hmem
    exact hT2ne (by simpa using ((Bool.and_eq_true ..).mp hmf.2).1)
  · intro sg p u o hok hcontra
    subst hcontra
    simp only [findMember] at hok
    have hmem := oneOrNone_ok_some_mem hok
    simp only [findMemberRows] at hmem
    have hmf := List.mem_filter.mp hmem
    have hmid : m.id ∈ (identities.filter fun mi =>
        mi.tenantId == T2 && mi.platform == p && mi.username == u).map
          fun mi => mi.memberId := by
      simpa using hmf.2
    rcases List.mem_map.mp hmid with ⟨mi, hmif, hmival⟩
    have hmifil := List.mem_filter.mp hmif
    have hmit : mi.tenantId = T2 := by
      have := (Bool.and_eq_true ..).mp hmifil.2
      have := (Bool.and_eq_true ..).mp this.1
      simpa using this.1
    have := htc mi hmifil.1 m hm hmival
    exact hT2ne (by rw [← this, hmit])
  · intro ids ex res hok k v hkv hveq
    rcases findIdentities_entry_source hok k v hkv with
      ⟨mi, hmi, ht, _, hv, _, _⟩
    have := htc mi hmi m hm (by rw [← hv, hveq])
    exact hT2ne (by rw [← this, ht])
  · unfold getIdentitiesRows
    rw [List.filter_eq_nil_iff]
    intro mi hmi hbool
    have hb := (Bool.and_eq_true ..).mp hbool
    have hmid : mi.memberId = m.id := by simpa using hb.1
    have hmit : mi.tenantId = T2 := by simpa using hb.2
    exact hT2ne (by rw [← htc mi hmi m hm hmid, hmit])
  · intro segIds args c lst h en hen heq
    unfold getMemberIdsAndEmailsAndCount at h
    split at h
    · split at h
      · exact Except.noConfusion h
      · split at h
        · have hinj := (Except.ok.injEq ..).mp h
          have hlst : lst = [] := ((Prod.mk.injEq ..).mp hinj).2.symm
          rw [hlst] at hen
          cases hen
        · split at h
          · exact Except.noConfusion h
          · have hinj := (Except.ok.injEq ..).mp h
            have hlst := ((Prod.mk.injEq ..).mp hinj).2.symm
            rw [hlst] at hen
            rcases List.mem_map.mp hen with ⟨m2, hm2, hval⟩
            have hm2s : m2 ∈ sortRows _ ((memberSegmentPairs T2 segIds members segments).map
                fun pr => pr.1) :=
              List.drop_subset _ _ (List.take_subset _ _ hm2)
            rcases List.mem_map.mp (mem_sortRows.mp hm2s) with ⟨pr, hpr, hprval⟩
            have hps := mem_memberSegmentPairs.mp hpr
            have hid : m2.id = m.id := by rw [← hval] at heq; exact heq
            have : pr.1 = m := huniq pr.1 hps.1 (by rw [hprval, hid])
            exact hT2ne (by rw [← this]; exact hps.2.1)
    · exact Except.noConfusion h

/-- Witness for C3 at a concrete store: a `t1` member's identity rows are
invisible to a `getIdentities` read scoped to tenant `t2`. -/
theorem tenant_isolation_witness :
    getIdentitiesRows "m1" "t2" [⟨"m1", "t1", "i1", "gh", "al", none⟩] = [] :=
  (tenant_isolation "t1" "t2" (by decide)
    [⟨"m1", "t1", "A", ["a@x"], 3, 1, 2, .serialized "[]", 0, 5⟩]
    [⟨"m1", "t1", "i1", "gh", "al", none⟩] []
    ⟨"m1", "t1", "A", ["a@x"], 3, 1, 2, .serialized "[]", 0, 5⟩
    (by decide) rfl (by decide) (by decide)).2.2.2.1

end MemberRepo

